import Mathlib

/-!
# Verification of the Rokai-trading execution engine (`src/trading_execution.py`)

Shallow embedding of the `Position` / `Portfolio` ledger and of the exit-trigger
logic of `Portfolio.update_position`, together with proofs of the specified
properties (cash conservation, no-op behaviour on absent tickers, trailing-stop
monotonicity, exit-trigger ordering, PnL formulas, portfolio valuation).

Modelling conventions:
* Python floats are modelled as exact rationals (`ℚ`); timestamps as `ℕ`.
* The Python dict `Portfolio.positions` (ticker -> Position, unique keys,
  insertion order preserved) is modelled as an association list with
  `dictLookup` / `dictInsert` (replace in place) / `dictErase` (delete key).
* Logging calls have no effect on portfolio state and are dropped.
* The configuration values `EXIT_RULES["stop_loss"]["trailing"]` and
  `EXIT_RULES["stop_loss"]["percentage"]` are read from `config`, which in this
  repository snapshot does not define them; they are passed explicitly as an
  `ExitRules` parameter, so all results quantify over the configuration.
* The opaque `metadata` dictionaries are never read by any of the verified
  operations and are omitted from the records.
-/

namespace Trading

/-- The `Position` class of `trading_execution.py` (lines 220-283): a single
instrument holding.  `quantity` is signed (positive = long, negative = short).
The constructor initialises `exit_price`/`exit_time` to `None`, `pnl` and
`pnl_percentage` to `0.0` and `status` to `"open"`; those defaults are the
field defaults here. -/
structure Position where
  ticker : String
  quantity : ℚ
  entry_price : ℚ
  entry_time : ℕ
  stop_loss : Option ℚ := none
  take_profit : Option ℚ := none
  exit_price : Option ℚ := none
  exit_time : Option ℕ := none
  pnl : ℚ := 0
  pnl_percentage : ℚ := 0
  status : String := "open"
deriving DecidableEq

/-- Method `Position.update_stop_loss` (line 258): overwrite the stop-loss price. -/
def Position.update_stop_loss (p : Position) (price : ℚ) : Position :=
  { p with stop_loss := some price }

/-- Method `Position.update_take_profit` (line 262): overwrite the take-profit price. -/
def Position.update_take_profit (p : Position) (price : ℚ) : Position :=
  { p with take_profit := some price }

/-- Method `Position.close` (lines 266-278): record exit data, realized pnl
`(exit_price - entry_price) * quantity`, percentage pnl
`(exit_price / entry_price - 1) * 100 * (1 if quantity > 0 else -1)`,
and set the status to `"closed"`. -/
def Position.close (p : Position) (exit_price : ℚ) (exit_time : ℕ) : Position :=
  { p with
    exit_price := some exit_price
    exit_time := some exit_time
    pnl := (exit_price - p.entry_price) * p.quantity
    pnl_percentage :=
      (exit_price / p.entry_price - 1) * 100 * (if p.quantity > 0 then 1 else -1)
    status := "closed" }

/-- One record of `Portfolio.transactions` (lines 312-319 and 340-349).
Open records carry no pnl keys; close records do — modelled with `Option`. -/
structure Transaction where
  kind : String
  ticker : String
  quantity : ℚ
  price : ℚ
  timestamp : ℕ
  value : ℚ
  pnl : Option ℚ := none
  pnl_percentage : Option ℚ := none
deriving DecidableEq

/-- One sample of `Portfolio.equity_curve` (lines 419-423). -/
structure EquitySample where
  timestamp : ℕ
  portfolio_value : ℚ
  cash : ℚ
deriving DecidableEq

/-- Lookup in a Python-dict-as-association-list (`d[k]` / `k in d`). -/
def dictLookup {α : Type} : List (String × α) → String → Option α
  | [], _ => none
  | (k', v) :: rest, k => if k' = k then some v else dictLookup rest k

/-- Assignment `d[k] = v` on a Python dict: replace the entry in place if the key is
present, otherwise append it (Python dicts preserve insertion order). -/
def dictInsert {α : Type} : List (String × α) → String → α → List (String × α)
  | [], k, v => [(k, v)]
  | (k', v') :: rest, k, v =>
      if k' = k then (k, v) :: rest else (k', v') :: dictInsert rest k v

/-- Deletion `del d[k]` on a Python dict: remove the entry with that key. -/
def dictErase {α : Type} (d : List (String × α)) (k : String) : List (String × α) :=
  d.filter (fun tp => decide (tp.1 ≠ k))

/-- The keys of the map are pairwise distinct — automatically true of every
Python dict, and preserved by all portfolio operations. -/
def keysNodup {α : Type} (d : List (String × α)) : Prop :=
  (d.map Prod.fst).Nodup

/-- The `Portfolio` class state (lines 286-301). -/
structure Portfolio where
  initial_capital : ℚ
  cash : ℚ
  positions : List (String × Position)
  closed_positions : List Position
  equity_curve : List EquitySample
  transactions : List Transaction
deriving DecidableEq

/-- Constructor `Portfolio.__init__` (lines 289-301). -/
def Portfolio.init (initial_capital : ℚ) : Portfolio :=
  { initial_capital := initial_capital
    cash := initial_capital
    positions := []
    closed_positions := []
    equity_curve := []
    transactions := [] }

/-- Method `Portfolio.add_position` (lines 303-321): store the position under its
ticker (overwriting any existing entry — the code performs no duplicate
check), debit cash by `quantity * entry_price`, append an "open"
transaction record. -/
def Portfolio.add_position (p : Portfolio) (position : Position) : Portfolio :=
  { p with
    positions := dictInsert p.positions position.ticker position
    cash := p.cash - position.quantity * position.entry_price
    transactions := p.transactions ++
      [{ kind := "open"
         ticker := position.ticker
         quantity := position.quantity
         price := position.entry_price
         timestamp := position.entry_time
         value := position.quantity * position.entry_price }] }

/-- Method `Portfolio.close_position` (lines 323-352): if the ticker has no open
position, warn and return unchanged; otherwise close the `Position`, credit
cash by `quantity * exit_price`, append it to `closed_positions`, append a
"close" transaction, and delete the ticker from the open map. -/
def Portfolio.close_position (p : Portfolio) (ticker : String) (exit_price : ℚ)
    (exit_time : ℕ) : Portfolio :=
  match dictLookup p.positions ticker with
  | none => p
  | some position =>
      let closed := position.close exit_price exit_time
      { p with
        cash := p.cash + closed.quantity * exit_price
        closed_positions := p.closed_positions ++ [closed]
        transactions := p.transactions ++
          [{ kind := "close"
             ticker := closed.ticker
             quantity := closed.quantity
             price := exit_price
             timestamp := exit_time
             value := closed.quantity * exit_price
             pnl := some closed.pnl
             pnl_percentage := some closed.pnl_percentage }]
        positions := dictErase p.positions ticker }

/-- The trailing-stop configuration `EXIT_RULES["stop_loss"]` consumed at
lines 387-396 (`trailing` flag and `percentage`). -/
structure ExitRules where
  trailing : Bool
  percentage : ℚ
deriving DecidableEq

/-- The stop-loss trigger condition of lines 371-373:
`(quantity > 0 and price <= stop) or (quantity < 0 and price >= stop)`,
vacuously false when no stop is set. -/
def stopLossTriggered (position : Position) (current_price : ℚ) : Bool :=
  match position.stop_loss with
  | none => false
  | some sl =>
      (decide (0 < position.quantity) && decide (current_price ≤ sl)) ||
      (decide (position.quantity < 0) && decide (sl ≤ current_price))

/-- The take-profit trigger condition of lines 379-381:
`(quantity > 0 and price >= tp) or (quantity < 0 and price <= tp)`,
vacuously false when no take-profit is set. -/
def takeProfitTriggered (position : Position) (current_price : ℚ) : Bool :=
  match position.take_profit with
  | none => false
  | some tp =>
      (decide (0 < position.quantity) && decide (tp ≤ current_price)) ||
      (decide (position.quantity < 0) && decide (current_price ≤ tp))

/-- The trailing-stop adjustment of lines 386-397: only when trailing is
enabled and a stop exists, compute `price * (1 - pct)` (long) or
`price * (1 + pct)` (short) and store it only when it tightens the stop
(strictly greater for long, strictly smaller for short); the Python local
`new_stop` is inlined. -/
def applyTrailingStop (rules : ExitRules) (p : Portfolio) (ticker : String)
    (position : Position) (current_price : ℚ) : Portfolio :=
  if rules.trailing then
    match position.stop_loss with
    | none => p
    | some sl =>
        if 0 < position.quantity then
          if sl < current_price * (1 - rules.percentage) then
            { p with positions := dictInsert p.positions ticker (position.update_stop_loss (current_price * (1 - rules.percentage))) }
          else p
        else
          if current_price * (1 + rules.percentage) < sl then
            { p with positions := dictInsert p.positions ticker (position.update_stop_loss (current_price * (1 + rules.percentage))) }
          else p
  else p

/-- Method `Portfolio.update_position` (lines 354-397): no-op when the ticker has no
open position; otherwise check the stop-loss (closing at `current_price` and
returning immediately when it triggers), then the take-profit (likewise), and
only when neither triggered apply the trailing-stop adjustment. -/
def Portfolio.update_position (rules : ExitRules) (p : Portfolio) (ticker : String)
    (current_price : ℚ) (current_time : ℕ) : Portfolio :=
  match dictLookup p.positions ticker with
  | none => p
  | some position =>
      if stopLossTriggered position current_price then
        p.close_position ticker current_price current_time
      else if takeProfitTriggered position current_price then
        p.close_position ticker current_price current_time
      else
        applyTrailingStop rules p ticker position current_price

/-- Method `Portfolio.get_portfolio_value` (lines 425-439): cash plus
`quantity * current_price` summed over the open positions whose ticker is in
the price snapshot. -/
def Portfolio.get_portfolio_value (p : Portfolio)
    (current_prices : List (String × ℚ)) : ℚ :=
  p.positions.foldl
    (fun acc tp =>
      match dictLookup current_prices tp.1 with
      | some price => acc + tp.2.quantity * price
      | none => acc)
    p.cash

/-- The position-update loop of `Portfolio.update_portfolio` (lines 407-410):
iterate over a snapshot of the open tickers and call `update_position` for
each one present in the price snapshot. -/
def updateAllPositions (rules : ExitRules) (p : Portfolio)
    (current_prices : List (String × ℚ)) (current_time : ℕ) : Portfolio :=
  (p.positions.map Prod.fst).foldl
    (fun q ticker =>
      match dictLookup current_prices ticker with
      | some price => q.update_position rules ticker price current_time
      | none => q)
    p

/-- Method `Portfolio.update_portfolio` (lines 399-423): update every open position
against the snapshot, then append one equity-curve sample holding the
portfolio value (cash plus the marked value of snapshot-present positions —
the valuation loop of lines 412-416 is the same loop as
`get_portfolio_value`) and the cash balance. -/
def Portfolio.update_portfolio (rules : ExitRules) (p : Portfolio)
    (current_prices : List (String × ℚ)) (current_time : ℕ) : Portfolio :=
  let p1 := updateAllPositions rules p current_prices current_time
  { p1 with
    equity_curve := p1.equity_curve ++
      [{ timestamp := current_time
         portfolio_value := p1.get_portfolio_value current_prices
         cash := p1.cash }] }

/-- Modelled from the spec: the `RiskManager` class is absent from `src/`
(the `trading_execution.py` snapshot is cut off after
`get_position_exposure`; only callers remain in `main.py` and the tests).
Per spec §4.1 the sizing configuration is a maximum risk fraction of equity
per trade and a confidence floor. -/
structure RiskManager where
  max_risk_percent : ℚ
  confidence_floor : ℚ
deriving DecidableEq

/-- Modelled from the spec: `RiskManager.calculate_position_size` is missing
from the truncated source.  Per spec §4.1 it takes a ticker, a signal
direction, a confidence in 0-100 and the current price, fails safely
(returns 0) when `current_price <= 0` or the confidence is out of range,
returns 0 at or below the confidence floor, and otherwise sizes the trade so
that its notional is the configured max-risk fraction of portfolio equity
scaled down proportionally by confidence.  The ticker and direction do not
affect the size. -/
def RiskManager.calculate_position_size (rm : RiskManager) (_ticker : String)
    (_signal_direction : Int) (portfolio_equity confidence current_price : ℚ) : ℚ :=
  if current_price ≤ 0 then 0
  else if confidence < 0 ∨ 100 < confidence then 0
  else if confidence ≤ rm.confidence_floor then 0
  else rm.max_risk_percent * portfolio_equity * (confidence / 100) / current_price

/-! ## Derived notions used to state the claims -/

/-- Sum of `entry_price * quantity` over the open positions. -/
def openEntryValue (d : List (String × Position)) : ℚ :=
  (d.map (fun tp => tp.2.entry_price * tp.2.quantity)).sum

/-- Sum of realized pnl over a list of closed positions. -/
def closedPnl (l : List Position) : ℚ :=
  (l.map Position.pnl).sum

/-- One call in a sequence of portfolio mutations (claim C1). -/
inductive PortfolioOp where
  | add (position : Position)
  | close (ticker : String) (exit_price : ℚ) (exit_time : ℕ)
deriving DecidableEq

/-- Apply one `PortfolioOp`. -/
def applyOp (p : Portfolio) : PortfolioOp → Portfolio
  | .add position => p.add_position position
  | .close ticker exit_price exit_time => p.close_position ticker exit_price exit_time

/-- Apply a sequence of `PortfolioOp`s in order. -/
def applyOps (p : Portfolio) (ops : List PortfolioOp) : Portfolio :=
  ops.foldl applyOp p

/-- One `PortfolioOp` is admissible in a state: an `add` must target a ticker
with no open position (a `close` is always admissible). -/
def opValid (p : Portfolio) : PortfolioOp → Bool
  | .add position => (dictLookup p.positions position.ticker).isNone
  | .close _ _ _ => true

/-- A call sequence in which no `add` targets a ticker that already has an
open position (so no two open positions ever share a ticker). -/
def validOps : Portfolio → List PortfolioOp → Bool
  | _, [] => true
  | p, op :: rest => opValid p op && validOps (applyOp p op) rest

/-- A sequence of `update_position` calls on one ticker with given
price/time pairs (claim C4). -/
def updateSeq (rules : ExitRules) (ticker : String) (p : Portfolio) :
    List (ℚ × ℕ) → Portfolio
  | [] => p
  | (price, time) :: rest =>
      updateSeq rules ticker (p.update_position rules ticker price time) rest

/-- Mark-to-market value of exactly those open positions whose ticker appears
in the snapshot, each at its snapshot price (claim C9): positions absent from
the snapshot contribute nothing. -/
def presentValue (d : List (String × Position))
    (current_prices : List (String × ℚ)) : ℚ :=
  ((d.filter (fun tp => (dictLookup current_prices tp.1).isSome)).map
    (fun tp => tp.2.quantity * (dictLookup current_prices tp.1).getD 0)).sum

/-! ## Concrete data for witnesses and counterexamples -/

/-- Trailing stops enabled at 5%. -/
def rulesOn : ExitRules := { trailing := true, percentage := 1/20 }

/-- Trailing stops disabled. -/
def rulesOff : ExitRules := { trailing := false, percentage := 1/20 }

/-- The spec §8 scenario position: long 10 AAPL at 150. -/
def posAAPL : Position :=
  { ticker := "AAPL", quantity := 10, entry_price := 150, entry_time := 0 }

/-- A second AAPL position (duplicate-ticker counterexample). -/
def posAAPL2 : Position :=
  { ticker := "AAPL", quantity := 5, entry_price := 100, entry_time := 1 }

/-- A long AAPL position with stop 90 and take-profit 110. -/
def posStopTp : Position :=
  { ticker := "AAPL", quantity := 10, entry_price := 100, entry_time := 0,
    stop_loss := some 90, take_profit := some 110 }

/-- A long AAPL position with stop 90 and no take-profit. -/
def posStopOnly : Position :=
  { ticker := "AAPL", quantity := 10, entry_price := 100, entry_time := 0,
    stop_loss := some 90 }

/-- A degenerate position with quantity 0 (claim C7 counterexample). -/
def posZero : Position :=
  { ticker := "X", quantity := 0, entry_price := 1, entry_time := 0 }

/-- A position with no stop-loss (claim C10 witness). -/
def posNoStop : Position :=
  { ticker := "AAPL", quantity := 10, entry_price := 100, entry_time := 0 }

/-- Portfolio holding `posAAPL`. -/
def pfAAPL : Portfolio := (Portfolio.init 100000).add_position posAAPL

/-- Portfolio holding `posStopTp`. -/
def pfStopTp : Portfolio := (Portfolio.init 100000).add_position posStopTp

/-- Portfolio holding `posStopOnly`. -/
def pfStopOnly : Portfolio := (Portfolio.init 100000).add_position posStopOnly

/-- Portfolio holding `posNoStop`. -/
def pfNoStop : Portfolio := (Portfolio.init 100000).add_position posNoStop

/-- The spec §8 scenario trace: open long 10 AAPL at 150, close at 140. -/
def demoOps : List PortfolioOp :=
  [.add posAAPL, .close "AAPL" 140 1]

/-- A 2%-of-equity risk manager with a confidence floor of 60. -/
def rmDemo : RiskManager := { max_risk_percent := 1/50, confidence_floor := 60 }

end Trading


namespace Trading

/-! ## Dictionary lemmas -/

theorem dictLookup_insert_self {α : Type} (d : List (String × α)) (k : String) (v : α) :
    dictLookup (dictInsert d k v) k = some v := by
  induction d with
  | nil => simp [dictInsert, dictLookup]
  | cons hd tl ih =>
      obtain ⟨a, b⟩ := hd
      by_cases ha : a = k
      · simp [dictInsert, ha, dictLookup]
      · simp [dictInsert, ha, dictLookup, ih]

theorem dictLookup_insert_ne {α : Type} (d : List (String × α)) {k k' : String} (v : α)
    (h : k' ≠ k) : dictLookup (dictInsert d k v) k' = dictLookup d k' := by
  induction d with
  | nil => simp [dictInsert, dictLookup, Ne.symm h]
  | cons hd tl ih =>
      obtain ⟨a, b⟩ := hd
      by_cases ha : a = k
      · subst ha
        simp [dictInsert, dictLookup, Ne.symm h]
      · simp [dictInsert, ha, dictLookup, ih]

theorem dictLookup_erase_self {α : Type} (d : List (String × α)) (k : String) :
    dictLookup (dictErase d k) k = none := by
  induction d with
  | nil => simp [dictErase, dictLookup]
  | cons hd tl ih =>
      obtain ⟨a, b⟩ := hd
      by_cases ha : a = k
      · simpa [dictErase, ha] using ih
      · simpa [dictErase, ha, dictLookup] using ih

theorem dictLookup_eq_none_iff {α : Type} (d : List (String × α)) (k : String) :
    dictLookup d k = none ↔ k ∉ d.map Prod.fst := by
  induction d with
  | nil => simp [dictLookup]
  | cons hd tl ih =>
      obtain ⟨a, b⟩ := hd
      by_cases ha : a = k
      · subst ha
        simp [dictLookup]
      · rw [List.map_cons, List.mem_cons, not_or]
        simp only [dictLookup, if_neg ha, ih]
        exact ⟨fun hm => ⟨fun he => ha he.symm, hm⟩, fun hm => hm.2⟩

theorem dictInsert_of_none {α : Type} {d : List (String × α)} {k : String} (v : α)
    (h : dictLookup d k = none) : dictInsert d k v = d ++ [(k, v)] := by
  induction d with
  | nil => simp [dictInsert]
  | cons hd tl ih =>
      obtain ⟨a, b⟩ := hd
      by_cases ha : a = k
      · rw [dictLookup, if_pos ha] at h
        exact absurd h (by simp)
      · rw [dictLookup, if_neg ha] at h
        simp [dictInsert, ha, ih h]

theorem keys_insert_of_some {α : Type} {d : List (String × α)} {k : String} {w : α} (v : α)
    (h : dictLookup d k = some w) :
    (dictInsert d k v).map Prod.fst = d.map Prod.fst := by
  induction d with
  | nil => simp [dictLookup] at h
  | cons hd tl ih =>
      obtain ⟨a, b⟩ := hd
      by_cases ha : a = k
      · simp [dictInsert, ha]
      · rw [dictLookup, if_neg ha] at h
        simp [dictInsert, ha, ih h]

theorem keysNodup_insert {α : Type} {d : List (String × α)} (k : String) (v : α)
    (h : keysNodup d) : keysNodup (dictInsert d k v) := by
  cases hl : dictLookup d k with
  | none =>
      have hk : k ∉ d.map Prod.fst := (dictLookup_eq_none_iff d k).mp hl
      rw [keysNodup, dictInsert_of_none v hl, List.map_append]
      simp only [List.map_cons, List.map_nil]
      exact List.Nodup.append h (List.nodup_singleton k)
        (fun a ha hmem => hk ((List.mem_singleton.mp hmem) ▸ ha))
  | some w =>
      rw [keysNodup, keys_insert_of_some v hl]
      exact h

theorem keysNodup_erase {α : Type} {d : List (String × α)} (k : String)
    (h : keysNodup d) : keysNodup (dictErase d k) := by
  have hsub : ((dictErase d k).map Prod.fst).Sublist (d.map Prod.fst) :=
    (List.filter_sublist d).map Prod.fst
  exact List.Nodup.sublist hsub h

theorem dictErase_of_not_mem {α : Type} {d : List (String × α)} {k : String}
    (h : k ∉ d.map Prod.fst) : dictErase d k = d := by
  induction d with
  | nil => rfl
  | cons hd tl ih =>
      obtain ⟨a, b⟩ := hd
      rw [List.map_cons, List.mem_cons, not_or] at h
      have ha : a ≠ k := fun he => h.1 he.symm
      have htl := ih h.2
      simp only [dictErase, List.filter_cons] at htl ⊢
      rw [if_pos (by simpa using ha), htl]

/-! ## Sum lemmas for the cash-conservation invariant -/

theorem openEntryValue_append (d l : List (String × Position)) :
    openEntryValue (d ++ l) = openEntryValue d + openEntryValue l := by
  simp [openEntryValue]

theorem openEntryValue_erase {d : List (String × Position)} {k : String} {pos : Position}
    (hnd : keysNodup d) (h : dictLookup d k = some pos) :
    openEntryValue (dictErase d k) = openEntryValue d - pos.entry_price * pos.quantity := by
  induction d with
  | nil => simp [dictLookup] at h
  | cons hd tl ih =>
      obtain ⟨a, b⟩ := hd
      rw [keysNodup, List.map_cons, List.nodup_cons] at hnd
      by_cases ha : a = k
      · subst ha
        rw [dictLookup, if_pos rfl] at h
        injection h with hb
        subst hb
        have htl : dictErase tl a = tl := dictErase_of_not_mem hnd.1
        simp only [dictErase, List.filter_cons] at htl ⊢
        rw [if_neg (by simp), htl]
        simp [openEntryValue]
      · rw [dictLookup, if_neg ha] at h
        have htl := ih hnd.2 h
        simp only [dictErase, List.filter_cons] at htl ⊢
        rw [if_pos (by simpa using ha)]
        simp only [openEntryValue, List.map_cons, List.sum_cons] at htl ⊢
        rw [htl]
        ring

/-! ## Claim C1: cash conservation over open/close traces -/

theorem applyOps_cash_invariant (ops : List PortfolioOp) :
    ∀ p : Portfolio, keysNodup p.positions →
      p.cash = p.initial_capital + closedPnl p.closed_positions
        - openEntryValue p.positions →
      validOps p ops = true →
      keysNodup (applyOps p ops).positions ∧
      (applyOps p ops).initial_capital = p.initial_capital ∧
      (applyOps p ops).cash = (applyOps p ops).initial_capital
        + closedPnl (applyOps p ops).closed_positions
        - openEntryValue (applyOps p ops).positions := by
  induction ops with
  | nil =>
      intro p hnd heq _
      exact ⟨hnd, rfl, by simpa using heq⟩
  | cons op rest ih =>
      intro p hnd heq hv
      simp only [validOps, Bool.and_eq_true] at hv
      obtain ⟨hop, hrest⟩ := hv
      have hstep : keysNodup (applyOp p op).positions ∧
          (applyOp p op).initial_capital = p.initial_capital ∧
          (applyOp p op).cash = (applyOp p op).initial_capital
            + closedPnl (applyOp p op).closed_positions
            - openEntryValue (applyOp p op).positions := by
        cases op with
        | add position =>
            simp only [opValid, Option.isNone_iff_eq_none] at hop
            have hins := dictInsert_of_none position hop
            refine ⟨?_, rfl, ?_⟩
            · simpa [applyOp, Portfolio.add_position] using
                keysNodup_insert position.ticker position hnd
            · simp only [applyOp, Portfolio.add_position, hins, openEntryValue_append]
              simp only [openEntryValue, closedPnl, List.map_cons, List.map_nil,
                List.sum_cons, List.sum_nil] at heq ⊢
              rw [heq]
              ring
        | close ticker exit_price exit_time =>
            cases hl : dictLookup p.positions ticker with
            | none =>
                have hid : applyOp p (PortfolioOp.close ticker exit_price exit_time) = p := by
                  simp [applyOp, Portfolio.close_position, hl]
                rw [hid]
                exact ⟨hnd, rfl, heq⟩
            | some position =>
                have herase := openEntryValue_erase hnd hl
                refine ⟨?_, ?_, ?_⟩
                · simpa [applyOp, Portfolio.close_position, hl] using
                    keysNodup_erase ticker hnd
                · simp [applyOp, Portfolio.close_position, hl]
                · simp only [applyOp, Portfolio.close_position, hl]
                  simp only [openEntryValue, closedPnl, List.map_append, List.sum_append,
                    List.map_cons, List.map_nil, List.sum_cons, List.sum_nil,
                    Position.close] at heq herase ⊢
                  rw [heq, herase]
                  ring
      have hres := ih (applyOp p op) hstep.1 hstep.2.2 hrest
      refine ⟨hres.1, hres.2.1.trans hstep.2.1, ?_⟩
      simpa [applyOps] using hres.2.2

/-- C1: over every sequence of `add_position`/`close_position` calls in which
no add targets a ticker that already has an open position (so no two open
positions ever share a ticker), the final cash balance equals the initial
capital plus the realized pnl of all closed positions minus the sum of
`entry_price * quantity` over the currently open positions. -/
theorem C1_cash_conservation (capital : ℚ) (ops : List PortfolioOp)
    (hvalid : validOps (Portfolio.init capital) ops = true) :
    (applyOps (Portfolio.init capital) ops).cash
      = capital + closedPnl (applyOps (Portfolio.init capital) ops).closed_positions
        - openEntryValue (applyOps (Portfolio.init capital) ops).positions := by
  have h := applyOps_cash_invariant ops (Portfolio.init capital)
    (by simp [Portfolio.init, keysNodup])
    (by simp [Portfolio.init, closedPnl, openEntryValue])
    hvalid
  rw [h.2.2, h.2.1]
  rfl

/-- Witness for C1 at the spec §8 scenario trace: open long 10 AAPL at 150,
close it at 140. -/
theorem C1_cash_conservation_witness :
    (applyOps (Portfolio.init 100000) demoOps).cash
      = 100000 + closedPnl (applyOps (Portfolio.init 100000) demoOps).closed_positions
        - openEntryValue (applyOps (Portfolio.init 100000) demoOps).positions :=
  C1_cash_conservation 100000 demoOps (by
    norm_num [validOps, opValid, demoOps, applyOp, Portfolio.add_position, Portfolio.init,
      posAAPL, dictLookup, dictInsert])

end Trading

namespace Trading

/-! ## No-op lemmas for absent tickers -/

theorem close_position_of_none {p : Portfolio} {ticker : String} (x : ℚ) (tm : ℕ)
    (h : dictLookup p.positions ticker = none) :
    p.close_position ticker x tm = p := by
  simp [Portfolio.close_position, h]

theorem update_position_of_none {p : Portfolio} {ticker : String} (rules : ExitRules)
    (pr : ℚ) (t : ℕ) (h : dictLookup p.positions ticker = none) :
    p.update_position rules ticker pr t = p := by
  simp [Portfolio.update_position, h]

/-! ## Claim C2: add_position on a duplicate ticker -/

/-- Counterexample to C2: `pfAAPL` already holds an open AAPL position, yet
`add_position` with a second AAPL position is not rejected — it changes the
cash balance, replaces the stored position and appends a transaction. -/
theorem C2_counterexample :
    (dictLookup pfAAPL.positions "AAPL").isSome = true ∧
    (pfAAPL.add_position posAAPL2).cash ≠ pfAAPL.cash ∧
    dictLookup (pfAAPL.add_position posAAPL2).positions "AAPL" = some posAAPL2 ∧
    (pfAAPL.add_position posAAPL2).transactions.length
      = pfAAPL.transactions.length + 1 := by
  refine ⟨?_, ?_, ?_, ?_⟩ <;>
    norm_num [pfAAPL, Portfolio.add_position, Portfolio.init, posAAPL, posAAPL2,
      dictLookup, dictInsert]

/-- C2 (amended): `add_position` performs no duplicate check — for every
portfolio, also one that already holds an open position for the same ticker,
it unconditionally stores the new position under its ticker (overwriting any
existing entry), debits cash by `quantity * entry_price`, and appends an
"open" transaction; `closed_positions` is untouched. -/
theorem C2_add_position_overwrites (p : Portfolio) (position : Position) :
    dictLookup (p.add_position position).positions position.ticker = some position ∧
    (p.add_position position).cash = p.cash - position.quantity * position.entry_price ∧
    (p.add_position position).transactions = p.transactions ++
      [{ kind := "open"
         ticker := position.ticker
         quantity := position.quantity
         price := position.entry_price
         timestamp := position.entry_time
         value := position.quantity * position.entry_price }] ∧
    (p.add_position position).closed_positions = p.closed_positions := by
  refine ⟨?_, rfl, rfl, rfl⟩
  simpa [Portfolio.add_position] using
    dictLookup_insert_self p.positions position.ticker position

/-! ## Claim C5: close/update on a missing ticker is a no-op -/

/-- C5: `close_position` and `update_position` on a ticker with no open
position leave the portfolio exactly as it was (cash, open positions,
closed positions, equity curve, transactions), and a second
`close_position` on the same ticker never alters the state produced by the
first close. -/
theorem C5_missing_ticker_noop (rules : ExitRules) (p q : Portfolio) (ticker : String)
    (x pr x2 : ℚ) (tm t2 tm2 : ℕ)
    (h : dictLookup p.positions ticker = none) :
    p.close_position ticker x tm = p ∧
    p.update_position rules ticker pr t2 = p ∧
    (q.close_position ticker x tm).close_position ticker x2 tm2
      = q.close_position ticker x tm := by
  refine ⟨close_position_of_none x tm h, update_position_of_none rules pr t2 h, ?_⟩
  cases hq : dictLookup q.positions ticker with
  | none =>
      rw [close_position_of_none x tm hq, close_position_of_none x2 tm2 hq]
  | some pos =>
      refine close_position_of_none x2 tm2 ?_
      simp only [Portfolio.close_position, hq]
      exact dictLookup_erase_self q.positions ticker

/-- Witness for C5: an empty portfolio has no AAPL position (first two
conjuncts), and `pfAAPL` — which does hold AAPL — is closed twice
(third conjunct). -/
theorem C5_missing_ticker_noop_witness :
    (Portfolio.init 100000).close_position "AAPL" 140 1 = Portfolio.init 100000 ∧
    (Portfolio.init 100000).update_position rulesOn "AAPL" 120 2 = Portfolio.init 100000 ∧
    (pfAAPL.close_position "AAPL" 140 1).close_position "AAPL" 130 2
      = pfAAPL.close_position "AAPL" 140 1 :=
  C5_missing_ticker_noop rulesOn (Portfolio.init 100000) pfAAPL "AAPL" 140 120 130 1 2 2
    (by norm_num [Portfolio.init, dictLookup])

/-! ## Claim C7: Position.close pnl formulas -/

/-- Counterexample to C7 as stated: for a position with `quantity = 0`
(which is not short, so the claim requires the unflipped sign), the code
multiplies by `-1`: closing `posZero` (entry 1) at exit 2 yields
`pnl_percentage = -100`, not `(2/1 - 1) * 100 = 100`. -/
theorem C7_counterexample :
    ¬ posZero.quantity < 0 ∧
    (posZero.close 2 1).pnl_percentage = -100 ∧
    (posZero.close 2 1).pnl_percentage
      ≠ (2 / posZero.entry_price - 1) * 100 := by
  refine ⟨?_, ?_, ?_⟩ <;> norm_num [posZero, Position.close]

/-- C7 (amended): `Position.close` at exit price `e` sets
`pnl = (e - entry_price) * quantity`, sets `status := "closed"`, and sets
`pnl_percentage = (e / entry_price - 1) * 100` with the sign flipped exactly
when the quantity is not positive (the code classifies `quantity = 0` with
the shorts); for genuinely long (`q > 0`) and short (`q < 0`) positions this
is the behaviour the claim describes. -/
theorem C7_close_pnl (position : Position) (e : ℚ) (t : ℕ)
    (_hn : position.entry_price ≠ 0) :
    (position.close e t).pnl = (e - position.entry_price) * position.quantity ∧
    (0 < position.quantity →
      (position.close e t).pnl_percentage = (e / position.entry_price - 1) * 100) ∧
    (position.quantity ≤ 0 →
      (position.close e t).pnl_percentage = -((e / position.entry_price - 1) * 100)) ∧
    (position.close e t).status = "closed" := by
  refine ⟨rfl, ?_, ?_, rfl⟩
  · intro hq
    show (e / position.entry_price - 1) * 100 * (if position.quantity > 0 then 1 else -1)
      = (e / position.entry_price - 1) * 100
    rw [if_pos hq, mul_one]
  · intro hq
    show (e / position.entry_price - 1) * 100 * (if position.quantity > 0 then 1 else -1)
      = -((e / position.entry_price - 1) * 100)
    rw [if_neg (not_lt.mpr hq)]
    ring

/-- Witness for C7 at the spec §8 scenario: close long 10 AAPL (entry 150)
at 140. -/
theorem C7_close_pnl_witness :
    (posAAPL.close 140 1).pnl = (140 - posAAPL.entry_price) * posAAPL.quantity ∧
    (0 < posAAPL.quantity →
      (posAAPL.close 140 1).pnl_percentage = (140 / posAAPL.entry_price - 1) * 100) ∧
    (posAAPL.quantity ≤ 0 →
      (posAAPL.close 140 1).pnl_percentage = -((140 / posAAPL.entry_price - 1) * 100)) ∧
    (posAAPL.close 140 1).status = "closed" :=
  C7_close_pnl posAAPL 140 1 (by norm_num [posAAPL])

/-! ## Claim C8: RiskManager.calculate_position_size (spec-modelled) -/

/-- C8: the (spec-modelled) position sizing returns 0 at or below the
confidence floor, for a non-positive price and for out-of-range confidence,
and — whenever the configured risk fraction and the portfolio equity are
non-negative (with negative equity no non-negative size could satisfy the
bound) — the notional `quantity * current_price` never exceeds
`max_risk_percent * portfolio_equity`. -/
theorem C8_position_size_safe (rm : RiskManager) (ticker : String) (dir : Int)
    (portfolio_equity confidence current_price : ℚ)
    (hrisk : 0 ≤ rm.max_risk_percent) (hequity : 0 ≤ portfolio_equity) :
    (confidence ≤ rm.confidence_floor →
      rm.calculate_position_size ticker dir portfolio_equity confidence current_price = 0) ∧
    (current_price ≤ 0 →
      rm.calculate_position_size ticker dir portfolio_equity confidence current_price = 0) ∧
    (confidence < 0 ∨ 100 < confidence →
      rm.calculate_position_size ticker dir portfolio_equity confidence current_price = 0) ∧
    rm.calculate_position_size ticker dir portfolio_equity confidence current_price
        * current_price
      ≤ rm.max_risk_percent * portfolio_equity := by
  unfold RiskManager.calculate_position_size
  by_cases h1 : current_price ≤ 0
  · simp only [if_pos h1]
    exact ⟨fun _ => trivial, fun _ => trivial, fun _ => trivial,
      by simpa using mul_nonneg hrisk hequity⟩
  · simp only [if_neg h1]
    by_cases h2 : confidence < 0 ∨ 100 < confidence
    · simp only [if_pos h2]
      exact ⟨fun _ => trivial, fun _ => trivial, fun _ => trivial,
        by simpa using mul_nonneg hrisk hequity⟩
    · simp only [if_neg h2]
      by_cases h3 : confidence ≤ rm.confidence_floor
      · simp only [if_pos h3]
        exact ⟨fun _ => trivial, fun _ => trivial, fun _ => trivial,
          by simpa using mul_nonneg hrisk hequity⟩
      · simp only [if_neg h3]
        refine ⟨fun hc => absurd hc h3, fun hc => absurd hc h1,
          fun hc => absurd hc h2, ?_⟩
        push_neg at h1 h2
        rw [div_mul_cancel₀ _ (ne_of_gt h1)]
        have hc1 : confidence / 100 ≤ 1 := by
          rw [div_le_one (by norm_num : (0:ℚ) < 100)]
          exact h2.2
        calc rm.max_risk_percent * portfolio_equity * (confidence / 100)
            ≤ rm.max_risk_percent * portfolio_equity * 1 :=
              mul_le_mul_of_nonneg_left hc1 (mul_nonneg hrisk hequity)
          _ = rm.max_risk_percent * portfolio_equity := mul_one _

/-- Witness for C8: 2% risk, floor 60, equity 100000, confidence 75.55,
price 175.25. -/
theorem C8_position_size_safe_witness :
    ((1511/20 : ℚ) ≤ rmDemo.confidence_floor →
      rmDemo.calculate_position_size "AAPL" 1 100000 (1511/20) (701/4) = 0) ∧
    ((701/4 : ℚ) ≤ 0 →
      rmDemo.calculate_position_size "AAPL" 1 100000 (1511/20) (701/4) = 0) ∧
    ((1511/20 : ℚ) < 0 ∨ (100:ℚ) < 1511/20 →
      rmDemo.calculate_position_size "AAPL" 1 100000 (1511/20) (701/4) = 0) ∧
    rmDemo.calculate_position_size "AAPL" 1 100000 (1511/20) (701/4) * (701/4)
      ≤ rmDemo.max_risk_percent * 100000 :=
  C8_position_size_safe rmDemo "AAPL" 1 100000 (1511/20) (701/4)
    (by norm_num [rmDemo]) (by norm_num)

end Trading

namespace Trading

/-! ## Claim C9: portfolio valuation and the equity curve -/

theorem value_foldl (current_prices : List (String × ℚ)) :
    ∀ (d : List (String × Position)) (acc : ℚ),
      d.foldl
        (fun acc tp =>
          match dictLookup current_prices tp.1 with
          | some price => acc + tp.2.quantity * price
          | none => acc)
        acc
      = acc + presentValue d current_prices := by
  intro d
  induction d with
  | nil => intro acc; simp [presentValue]
  | cons hd tl ih =>
      intro acc
      obtain ⟨a, b⟩ := hd
      cases hl : dictLookup current_prices a with
      | none =>
          simp only [List.foldl_cons, hl]
          rw [ih]
          simp [presentValue, List.filter_cons, hl]
      | some price =>
          simp only [List.foldl_cons, hl]
          rw [ih]
          simp only [presentValue, List.filter_cons, hl, Option.isSome_some, if_pos,
            List.map_cons, List.sum_cons, Option.getD_some]
          ring

theorem get_portfolio_value_eq (p : Portfolio) (current_prices : List (String × ℚ)) :
    p.get_portfolio_value current_prices
      = p.cash + presentValue p.positions current_prices := by
  rw [Portfolio.get_portfolio_value]
  exact value_foldl current_prices p.positions p.cash

theorem close_position_equity (p : Portfolio) (ticker : String) (x : ℚ) (tm : ℕ) :
    (p.close_position ticker x tm).equity_curve = p.equity_curve := by
  rw [Portfolio.close_position]
  cases dictLookup p.positions ticker <;> rfl

theorem applyTrailingStop_equity (rules : ExitRules) (p : Portfolio) (ticker : String)
    (position : Position) (price : ℚ) :
    (applyTrailingStop rules p ticker position price).equity_curve = p.equity_curve := by
  rw [applyTrailingStop]
  repeat' split
  all_goals rfl

theorem update_position_equity (rules : ExitRules) (p : Portfolio) (ticker : String)
    (price : ℚ) (t : ℕ) :
    (p.update_position rules ticker price t).equity_curve = p.equity_curve := by
  rw [Portfolio.update_position]
  repeat' split
  all_goals first
    | rfl
    | apply close_position_equity
    | apply applyTrailingStop_equity

theorem foldlUpdate_equity (rules : ExitRules) (current_prices : List (String × ℚ))
    (t : ℕ) :
    ∀ (keys : List String) (p : Portfolio),
      (keys.foldl
        (fun q ticker =>
          match dictLookup current_prices ticker with
          | some price => q.update_position rules ticker price t
          | none => q)
        p).equity_curve
      = p.equity_curve := by
  intro keys
  induction keys with
  | nil => intro p; rfl
  | cons k rest ih =>
      intro p
      cases hl : dictLookup current_prices k with
      | none => simp only [List.foldl_cons, hl, ih]
      | some price => simp only [List.foldl_cons, hl, ih, update_position_equity]

theorem updateAllPositions_equity (rules : ExitRules) (p : Portfolio)
    (current_prices : List (String × ℚ)) (t : ℕ) :
    (updateAllPositions rules p current_prices t).equity_curve = p.equity_curve := by
  rw [updateAllPositions]
  exact foldlUpdate_equity rules current_prices t (p.positions.map Prod.fst) p

/-- C9: `get_portfolio_value` equals cash plus the sum of
`quantity * snapshot-price` over exactly those open positions whose ticker
appears in the snapshot — a position absent from the snapshot contributes
zero, it is not valued at its entry price; `update_portfolio` appends
exactly one equity-curve sample per call, whose recorded `portfolio_value`
is the post-update cash plus that same snapshot-present sum and whose
recorded `cash` is the post-update cash. -/
theorem C9_portfolio_valuation (rules : ExitRules) (p : Portfolio)
    (current_prices : List (String × ℚ)) (t : ℕ) :
    (p.get_portfolio_value current_prices
      = p.cash + presentValue p.positions current_prices) ∧
    ((p.update_portfolio rules current_prices t).equity_curve
      = p.equity_curve ++
        [{ timestamp := t
           portfolio_value := (updateAllPositions rules p current_prices t).cash
             + presentValue (updateAllPositions rules p current_prices t).positions
                 current_prices
           cash := (updateAllPositions rules p current_prices t).cash }]) ∧
    (p.update_portfolio rules current_prices t).equity_curve.length
      = p.equity_curve.length + 1 := by
  have h2 : (p.update_portfolio rules current_prices t).equity_curve
      = p.equity_curve ++
        [{ timestamp := t
           portfolio_value := (updateAllPositions rules p current_prices t).cash
             + presentValue (updateAllPositions rules p current_prices t).positions
                 current_prices
           cash := (updateAllPositions rules p current_prices t).cash }] := by
    rw [Portfolio.update_portfolio]
    rw [updateAllPositions_equity, get_portfolio_value_eq]
  refine ⟨get_portfolio_value_eq p current_prices, h2, ?_⟩
  rw [h2]
  simp

end Trading

namespace Trading

/-! ## Branch lemmas for update_position -/

theorem update_position_eq_close_of_stop (rules : ExitRules) (p : Portfolio)
    (ticker : String) (position : Position) (price : ℚ) (t : ℕ)
    (hpos : dictLookup p.positions ticker = some position)
    (h : stopLossTriggered position price = true) :
    p.update_position rules ticker price t = p.close_position ticker price t := by
  simp [Portfolio.update_position, hpos, h]

theorem update_position_eq_close_of_tp (rules : ExitRules) (p : Portfolio)
    (ticker : String) (position : Position) (price : ℚ) (t : ℕ)
    (hpos : dictLookup p.positions ticker = some position)
    (h1 : stopLossTriggered position price = false)
    (h2 : takeProfitTriggered position price = true) :
    p.update_position rules ticker price t = p.close_position ticker price t := by
  simp [Portfolio.update_position, hpos, h1, h2]

theorem update_position_eq_trailing (rules : ExitRules) (p : Portfolio)
    (ticker : String) (position : Position) (price : ℚ) (t : ℕ)
    (hpos : dictLookup p.positions ticker = some position)
    (h1 : stopLossTriggered position price = false)
    (h2 : takeProfitTriggered position price = false) :
    p.update_position rules ticker price t
      = applyTrailingStop rules p ticker position price := by
  simp [Portfolio.update_position, hpos, h1, h2]

theorem close_position_positions (p : Portfolio) (ticker : String) (x : ℚ) (tm : ℕ)
    {position : Position} (hpos : dictLookup p.positions ticker = some position) :
    (p.close_position ticker x tm).positions = dictErase p.positions ticker := by
  rw [Portfolio.close_position, hpos]

theorem lookup_close_position_self (p : Portfolio) (ticker : String) (x : ℚ) (tm : ℕ) :
    dictLookup (p.close_position ticker x tm).positions ticker = none := by
  cases hq : dictLookup p.positions ticker with
  | none => rw [close_position_of_none x tm hq]; exact hq
  | some pos =>
      rw [close_position_positions p ticker x tm hq]
      exact dictLookup_erase_self p.positions ticker

/-- Complete case analysis of the trailing-stop adjustment at the level of
the stored map entry. -/
theorem applyTrailingStop_lookup (rules : ExitRules) (p : Portfolio) (ticker : String)
    (position : Position) (price : ℚ) :
    (rules.trailing = false ∧ applyTrailingStop rules p ticker position price = p) ∨
    (position.stop_loss = none ∧ applyTrailingStop rules p ticker position price = p) ∨
    (rules.trailing = true ∧ ∃ sl : ℚ, position.stop_loss = some sl ∧
      ((0 < position.quantity ∧ ¬ sl < price * (1 - rules.percentage) ∧
          applyTrailingStop rules p ticker position price = p) ∨
       (0 < position.quantity ∧ sl < price * (1 - rules.percentage) ∧
          dictLookup (applyTrailingStop rules p ticker position price).positions ticker
            = some (position.update_stop_loss (price * (1 - rules.percentage)))) ∨
       (¬ 0 < position.quantity ∧ ¬ price * (1 + rules.percentage) < sl ∧
          applyTrailingStop rules p ticker position price = p) ∨
       (¬ 0 < position.quantity ∧ price * (1 + rules.percentage) < sl ∧
          dictLookup (applyTrailingStop rules p ticker position price).positions ticker
            = some (position.update_stop_loss (price * (1 + rules.percentage)))))) := by
  by_cases ht : rules.trailing
  · cases hs : position.stop_loss with
    | none =>
        refine Or.inr (Or.inl ⟨rfl, ?_⟩)
        simp [applyTrailingStop, hs]
    | some sl =>
        by_cases hq : 0 < position.quantity
        · by_cases hc : sl < price * (1 - rules.percentage)
          · refine Or.inr (Or.inr ⟨ht, sl, rfl, Or.inr (Or.inl ⟨hq, hc, ?_⟩)⟩)
            rw [applyTrailingStop]
            simp only [ht, if_true, hs, if_pos hq, if_pos hc]
            exact dictLookup_insert_self p.positions ticker _
          · refine Or.inr (Or.inr ⟨ht, sl, rfl, Or.inl ⟨hq, hc, ?_⟩⟩)
            rw [applyTrailingStop]
            simp only [ht, if_true, hs, if_pos hq, if_neg hc]
        · by_cases hc : price * (1 + rules.percentage) < sl
          · refine Or.inr (Or.inr ⟨ht, sl, rfl, Or.inr (Or.inr (Or.inr ⟨hq, hc, ?_⟩))⟩)
            rw [applyTrailingStop]
            simp only [ht, if_true, hs, if_neg hq, if_pos hc]
            exact dictLookup_insert_self p.positions ticker _
          · refine Or.inr (Or.inr ⟨ht, sl, rfl, Or.inr (Or.inr (Or.inl ⟨hq, hc, ?_⟩))⟩)
            rw [applyTrailingStop]
            simp only [ht, if_true, hs, if_neg hq, if_neg hc]
  · refine Or.inl ⟨by simpa using ht, ?_⟩
    simp [applyTrailingStop, ht]

/-- If the ticker still has an open position after `update_position`, neither
exit trigger fired, and the surviving position is the old one except possibly
for a tightened trailing stop. -/
theorem update_position_lookup_some (rules : ExitRules) (p : Portfolio) (ticker : String)
    (position : Position) (price : ℚ) (t : ℕ)
    (hpos : dictLookup p.positions ticker = some position)
    (position' : Position)
    (hafter : dictLookup (p.update_position rules ticker price t).positions ticker
      = some position') :
    stopLossTriggered position price = false ∧
    takeProfitTriggered position price = false ∧
    ((rules.trailing = false ∧ position' = position) ∨
     (position.stop_loss = none ∧ position' = position) ∨
     (rules.trailing = true ∧ ∃ sl : ℚ, position.stop_loss = some sl ∧
       ((0 < position.quantity ∧ ¬ sl < price * (1 - rules.percentage) ∧
           position' = position) ∨
        (0 < position.quantity ∧ sl < price * (1 - rules.percentage) ∧
           position' = position.update_stop_loss (price * (1 - rules.percentage))) ∨
        (¬ 0 < position.quantity ∧ ¬ price * (1 + rules.percentage) < sl ∧
           position' = position) ∨
        (¬ 0 < position.quantity ∧ price * (1 + rules.percentage) < sl ∧
           position' = position.update_stop_loss (price * (1 + rules.percentage)))))) := by
  cases h1 : stopLossTriggered position price with
  | true =>
      exfalso
      rw [update_position_eq_close_of_stop rules p ticker position price t hpos h1,
        lookup_close_position_self] at hafter
      exact Option.noConfusion hafter
  | false =>
      cases h2 : takeProfitTriggered position price with
      | true =>
          exfalso
          rw [update_position_eq_close_of_tp rules p ticker position price t hpos h1 h2,
            lookup_close_position_self] at hafter
          exact Option.noConfusion hafter
      | false =>
          refine ⟨rfl, rfl, ?_⟩
          rw [update_position_eq_trailing rules p ticker position price t hpos h1 h2]
            at hafter
          rcases applyTrailingStop_lookup rules p ticker position price with
            ⟨htf, heq⟩ | ⟨hs, heq⟩ | ⟨ht, sl, hs, hcase⟩
          · rw [heq, hpos] at hafter
            exact Or.inl ⟨htf, (Option.some.inj hafter).symm⟩
          · rw [heq, hpos] at hafter
            exact Or.inr (Or.inl ⟨hs, (Option.some.inj hafter).symm⟩)
          · rcases hcase with ⟨hq, hc, heq⟩ | ⟨hq, hc, hlook⟩ | ⟨hq, hc, heq⟩ | ⟨hq, hc, hlook⟩
            · rw [heq, hpos] at hafter
              exact Or.inr (Or.inr ⟨ht, sl, hs,
                Or.inl ⟨hq, hc, (Option.some.inj hafter).symm⟩⟩)
            · rw [hlook] at hafter
              exact Or.inr (Or.inr ⟨ht, sl, hs,
                Or.inr (Or.inl ⟨hq, hc, (Option.some.inj hafter).symm⟩)⟩)
            · rw [heq, hpos] at hafter
              exact Or.inr (Or.inr ⟨ht, sl, hs,
                Or.inr (Or.inr (Or.inl ⟨hq, hc, (Option.some.inj hafter).symm⟩))⟩)
            · rw [hlook] at hafter
              exact Or.inr (Or.inr ⟨ht, sl, hs,
                Or.inr (Or.inr (Or.inr ⟨hq, hc, (Option.some.inj hafter).symm⟩))⟩)

/-- If neither trigger fired, the position survives the call. -/
theorem update_position_survives (rules : ExitRules) (p : Portfolio) (ticker : String)
    (position : Position) (price : ℚ) (t : ℕ)
    (hpos : dictLookup p.positions ticker = some position)
    (h1 : stopLossTriggered position price = false)
    (h2 : takeProfitTriggered position price = false) :
    dictLookup (p.update_position rules ticker price t).positions ticker ≠ none := by
  rw [update_position_eq_trailing rules p ticker position price t hpos h1 h2]
  rcases applyTrailingStop_lookup rules p ticker position price with
    ⟨-, heq⟩ | ⟨-, heq⟩ | ⟨-, sl, -, hcase⟩
  · rw [heq, hpos]; simp
  · rw [heq, hpos]; simp
  · rcases hcase with ⟨-, -, heq⟩ | ⟨-, -, hlook⟩ | ⟨-, -, heq⟩ | ⟨-, -, hlook⟩
    · rw [heq, hpos]; simp
    · rw [hlook]; simp
    · rw [heq, hpos]; simp
    · rw [hlook]; simp

end Trading

namespace Trading

/-! ## Claim C3: stop-loss boundary for long positions -/

/-- Counterexample to C3 as stated: a long position with stop 90 and
take-profit 110 is closed by `update_position` at price 120, even though
`120 > 90`, because the take-profit fires — so the "closes only if
`price <= S`" direction is false for positions that also carry a
take-profit. -/
theorem C3_counterexample :
    (90 : ℚ) < 120 ∧
    posStopTp.stop_loss = some 90 ∧
    0 < posStopTp.quantity ∧
    dictLookup pfStopTp.positions "AAPL" = some posStopTp ∧
    dictLookup (pfStopTp.update_position rulesOff "AAPL" 120 1).positions "AAPL"
      = none := by
  refine ⟨by norm_num, rfl, by norm_num [posStopTp], ?_, ?_⟩
  · norm_num [pfStopTp, Portfolio.add_position, Portfolio.init, posStopTp,
      dictLookup, dictInsert]
  · norm_num [pfStopTp, Portfolio.update_position, Portfolio.add_position, Portfolio.init,
      posStopTp, dictLookup, dictInsert, dictErase, stopLossTriggered, takeProfitTriggered,
      Portfolio.close_position, Position.close, List.filter]

/-- C3 (amended): for an open long position with stop-loss `S`,
`update_position` at price `p` always closes the position when `p ≤ S`;
and provided the take-profit does not also fire (none set, or the price is
below it), the position is closed by the call **iff** `p ≤ S`. -/
theorem C3_stop_loss_boundary (rules : ExitRules) (p : Portfolio) (ticker : String)
    (position : Position) (price : ℚ) (t : ℕ) (S : ℚ)
    (hpos : dictLookup p.positions ticker = some position)
    (hlong : 0 < position.quantity)
    (hstop : position.stop_loss = some S) :
    (price ≤ S →
      dictLookup (p.update_position rules ticker price t).positions ticker = none) ∧
    ((∀ tp, position.take_profit = some tp → price < tp) →
      (dictLookup (p.update_position rules ticker price t).positions ticker = none
        ↔ price ≤ S)) := by
  have hclose : price ≤ S →
      dictLookup (p.update_position rules ticker price t).positions ticker = none := by
    intro hle
    have h1 : stopLossTriggered position price = true := by
      rw [stopLossTriggered, hstop]
      simp [hlong, hle]
    rw [update_position_eq_close_of_stop rules p ticker position price t hpos h1]
    exact lookup_close_position_self p ticker price t
  refine ⟨hclose, fun htp => ⟨?_, hclose⟩⟩
  intro hclosed
  by_contra hgt
  push_neg at hgt
  have h1 : stopLossTriggered position price = false := by
    rw [stopLossTriggered, hstop]
    simp [not_le.mpr hgt, not_lt.mpr hlong.le]
  have h2 : takeProfitTriggered position price = false := by
    rw [takeProfitTriggered]
    cases htp2 : position.take_profit with
    | none => rfl
    | some tp =>
        have hlt := htp tp htp2
        simp [not_le.mpr hlt, not_lt.mpr hlong.le]
  exact update_position_survives rules p ticker position price t hpos h1 h2 hclosed

/-- Witness for C3 (amended): long AAPL position, stop 90, no take-profit,
price 80 — the call closes it, and the iff holds. -/
theorem C3_stop_loss_boundary_witness :
    ((80 : ℚ) ≤ 90 →
      dictLookup (pfStopOnly.update_position rulesOn "AAPL" 80 1).positions "AAPL"
        = none) ∧
    ((∀ tp, posStopOnly.take_profit = some tp → (80:ℚ) < tp) →
      (dictLookup (pfStopOnly.update_position rulesOn "AAPL" 80 1).positions "AAPL"
          = none ↔ (80 : ℚ) ≤ 90)) :=
  C3_stop_loss_boundary rulesOn pfStopOnly "AAPL" posStopOnly 80 1 90
    (by norm_num [pfStopOnly, Portfolio.add_position, Portfolio.init, posStopOnly,
      dictLookup, dictInsert])
    (by norm_num [posStopOnly]) rfl

/-! ## Claim C6: fixed evaluation order of exit triggers -/

/-- C6: inside one `update_position` call on an existing open position the
triggers are evaluated in a fixed order — if the stop-loss condition holds
the call is exactly `close_position` (take-profit and trailing logic never
run); otherwise, if the take-profit condition holds the call is exactly
`close_position`; and when neither holds the call is exactly the
trailing-stop recomputation, which never closes the position. -/
theorem C6_exit_trigger_order (rules : ExitRules) (p : Portfolio) (ticker : String)
    (position : Position) (price : ℚ) (t : ℕ)
    (hpos : dictLookup p.positions ticker = some position) :
    (stopLossTriggered position price = true →
      p.update_position rules ticker price t = p.close_position ticker price t) ∧
    (stopLossTriggered position price = false →
      takeProfitTriggered position price = true →
      p.update_position rules ticker price t = p.close_position ticker price t) ∧
    (stopLossTriggered position price = false →
      takeProfitTriggered position price = false →
      p.update_position rules ticker price t
          = applyTrailingStop rules p ticker position price ∧
      dictLookup (p.update_position rules ticker price t).positions ticker ≠ none) := by
  refine ⟨fun h1 => update_position_eq_close_of_stop rules p ticker position price t hpos h1,
    fun h1 h2 => update_position_eq_close_of_tp rules p ticker position price t hpos h1 h2,
    fun h1 h2 => ⟨update_position_eq_trailing rules p ticker position price t hpos h1 h2,
      update_position_survives rules p ticker position price t hpos h1 h2⟩⟩

/-- Witness for C6: long AAPL position with stop 90 (no take-profit) at
price 100 with trailing stops on. -/
theorem C6_exit_trigger_order_witness :
    (stopLossTriggered posStopOnly 100 = true →
      pfStopOnly.update_position rulesOn "AAPL" 100 1
        = pfStopOnly.close_position "AAPL" 100 1) ∧
    (stopLossTriggered posStopOnly 100 = false →
      takeProfitTriggered posStopOnly 100 = true →
      pfStopOnly.update_position rulesOn "AAPL" 100 1
        = pfStopOnly.close_position "AAPL" 100 1) ∧
    (stopLossTriggered posStopOnly 100 = false →
      takeProfitTriggered posStopOnly 100 = false →
      pfStopOnly.update_position rulesOn "AAPL" 100 1
          = applyTrailingStop rulesOn pfStopOnly "AAPL" posStopOnly 100 ∧
      dictLookup (pfStopOnly.update_position rulesOn "AAPL" 100 1).positions "AAPL"
        ≠ none) :=
  C6_exit_trigger_order rulesOn pfStopOnly "AAPL" posStopOnly 100 1
    (by norm_num [pfStopOnly, Portfolio.add_position, Portfolio.init, posStopOnly,
      dictLookup, dictInsert])

/-! ## Claim C10: a position with no stop-loss never acquires one -/

/-- C10: if an open position has `stop_loss = None`, then no
`update_position` call ever sets a stop on it — whatever the trailing
configuration and the price, if the position is still open afterwards its
stop-loss is still `None`. -/
theorem C10_no_stop_never_set (rules : ExitRules) (p : Portfolio) (ticker : String)
    (position : Position) (price : ℚ) (t : ℕ)
    (hpos : dictLookup p.positions ticker = some position)
    (hnone : position.stop_loss = none)
    (position' : Position)
    (hafter : dictLookup (p.update_position rules ticker price t).positions ticker
      = some position') :
    position'.stop_loss = none := by
  rcases (update_position_lookup_some rules p ticker position price t hpos
      position' hafter).2.2 with ⟨-, heq⟩ | ⟨-, heq⟩ | ⟨-, sl, hs, -⟩
  · rw [heq, hnone]
  · rw [heq, hnone]
  · rw [hnone] at hs
    exact Option.noConfusion hs

/-- Witness for C10: long AAPL position with no stop, trailing enabled,
price 120 — the position survives and still has no stop. -/
theorem C10_no_stop_never_set_witness : posNoStop.stop_loss = none :=
  C10_no_stop_never_set rulesOn pfNoStop "AAPL" posNoStop 120 1
    (by norm_num [pfNoStop, Portfolio.add_position, Portfolio.init, posNoStop,
      dictLookup, dictInsert])
    rfl posNoStop
    (by norm_num [pfNoStop, Portfolio.update_position, Portfolio.add_position,
      Portfolio.init, posNoStop, dictLookup, dictInsert, stopLossTriggered,
      takeProfitTriggered, applyTrailingStop, rulesOn])

end Trading

namespace Trading

/-! ## Claim C4: trailing-stop monotonicity -/

theorem step_stop_mono_long (rules : ExitRules) (p : Portfolio) (ticker : String)
    (position : Position) (price : ℚ) (t : ℕ) (s : ℚ)
    (hpos : dictLookup p.positions ticker = some position)
    (hq : 0 < position.quantity) (hs : position.stop_loss = some s)
    (position' : Position)
    (hafter : dictLookup (p.update_position rules ticker price t).positions ticker
      = some position') :
    0 < position'.quantity ∧ ∃ s' : ℚ, position'.stop_loss = some s' ∧ s ≤ s' := by
  rcases (update_position_lookup_some rules p ticker position price t hpos
      position' hafter).2.2 with ⟨-, heq⟩ | ⟨hnone, -⟩ | ⟨-, sl, hsl, hcase⟩
  · rw [heq]
    exact ⟨hq, s, hs, le_rfl⟩
  · rw [hnone] at hs
    exact Option.noConfusion hs
  · rw [hs] at hsl
    obtain rfl : s = sl := Option.some.inj hsl
    rcases hcase with ⟨-, -, heq⟩ | ⟨-, hc, heq⟩ | ⟨hq0, -, -⟩ | ⟨hq0, -, -⟩
    · rw [heq]
      exact ⟨hq, s, hs, le_rfl⟩
    · rw [heq]
      exact ⟨hq, price * (1 - rules.percentage), rfl, le_of_lt hc⟩
    · exact absurd hq hq0
    · exact absurd hq hq0

theorem step_stop_mono_short (rules : ExitRules) (p : Portfolio) (ticker : String)
    (position : Position) (price : ℚ) (t : ℕ) (s : ℚ)
    (hpos : dictLookup p.positions ticker = some position)
    (hq : position.quantity < 0) (hs : position.stop_loss = some s)
    (position' : Position)
    (hafter : dictLookup (p.update_position rules ticker price t).positions ticker
      = some position') :
    position'.quantity < 0 ∧ ∃ s' : ℚ, position'.stop_loss = some s' ∧ s' ≤ s := by
  rcases (update_position_lookup_some rules p ticker position price t hpos
      position' hafter).2.2 with ⟨-, heq⟩ | ⟨hnone, -⟩ | ⟨-, sl, hsl, hcase⟩
  · rw [heq]
    exact ⟨hq, s, hs, le_rfl⟩
  · rw [hnone] at hs
    exact Option.noConfusion hs
  · rw [hs] at hsl
    obtain rfl : s = sl := Option.some.inj hsl
    rcases hcase with ⟨hq0, -, -⟩ | ⟨hq0, -, -⟩ | ⟨-, -, heq⟩ | ⟨-, hc, heq⟩
    · exact absurd hq0 (not_lt.mpr hq.le)
    · exact absurd hq0 (not_lt.mpr hq.le)
    · rw [heq]
      exact ⟨hq, s, hs, le_rfl⟩
    · rw [heq]
      exact ⟨hq, price * (1 + rules.percentage), rfl, le_of_lt hc⟩

theorem updateSeq_none (rules : ExitRules) (ticker : String) :
    ∀ (l : List (ℚ × ℕ)) (p : Portfolio),
      dictLookup p.positions ticker = none →
      dictLookup (updateSeq rules ticker p l).positions ticker = none := by
  intro l
  induction l with
  | nil =>
      intro p h
      rw [updateSeq]
      exact h
  | cons pt rest ih =>
      intro p h
      obtain ⟨price, time⟩ := pt
      rw [updateSeq, update_position_of_none rules price time h]
      exact ih p h

theorem updateSeq_stop_mono_long (rules : ExitRules) (ticker : String) :
    ∀ (l : List (ℚ × ℕ)) (p : Portfolio) (position : Position) (s : ℚ),
      dictLookup p.positions ticker = some position →
      0 < position.quantity → position.stop_loss = some s →
      ∀ position', dictLookup (updateSeq rules ticker p l).positions ticker
          = some position' →
        0 < position'.quantity ∧ ∃ s' : ℚ, position'.stop_loss = some s' ∧ s ≤ s' := by
  intro l
  induction l with
  | nil =>
      intro p position s hpos hq hs position' hafter
      rw [updateSeq, hpos] at hafter
      obtain rfl : position = position' := Option.some.inj hafter
      exact ⟨hq, s, hs, le_rfl⟩
  | cons pt rest ih =>
      intro p position s hpos hq hs position' hafter
      obtain ⟨price, time⟩ := pt
      rw [updateSeq] at hafter
      cases hmid : dictLookup (p.update_position rules ticker price time).positions ticker
        with
      | none =>
          rw [updateSeq_none rules ticker rest _ hmid] at hafter
          exact Option.noConfusion hafter
      | some pmid =>
          obtain ⟨hqm, sm, hsm, hle⟩ := step_stop_mono_long rules p ticker position price
            time s hpos hq hs pmid hmid
          obtain ⟨hq', s', hs', hle'⟩ := ih (p.update_position rules ticker price time)
            pmid sm hmid hqm hsm position' hafter
          exact ⟨hq', s', hs', le_trans hle hle'⟩

theorem updateSeq_stop_mono_short (rules : ExitRules) (ticker : String) :
    ∀ (l : List (ℚ × ℕ)) (p : Portfolio) (position : Position) (s : ℚ),
      dictLookup p.positions ticker = some position →
      position.quantity < 0 → position.stop_loss = some s →
      ∀ position', dictLookup (updateSeq rules ticker p l).positions ticker
          = some position' →
        position'.quantity < 0 ∧ ∃ s' : ℚ, position'.stop_loss = some s' ∧ s' ≤ s := by
  intro l
  induction l with
  | nil =>
      intro p position s hpos hq hs position' hafter
      rw [updateSeq, hpos] at hafter
      obtain rfl : position = position' := Option.some.inj hafter
      exact ⟨hq, s, hs, le_rfl⟩
  | cons pt rest ih =>
      intro p position s hpos hq hs position' hafter
      obtain ⟨price, time⟩ := pt
      rw [updateSeq] at hafter
      cases hmid : dictLookup (p.update_position rules ticker price time).positions ticker
        with
      | none =>
          rw [updateSeq_none rules ticker rest _ hmid] at hafter
          exact Option.noConfusion hafter
      | some pmid =>
          obtain ⟨hqm, sm, hsm, hle⟩ := step_stop_mono_short rules p ticker position price
            time s hpos hq hs pmid hmid
          obtain ⟨hq', s', hs', hle'⟩ := ih (p.update_position rules ticker price time)
            pmid sm hmid hqm hsm position' hafter
          exact ⟨hq', s', hs', le_trans hle' hle⟩

/-- After any `update_position` call at price `price` with trailing enabled,
a surviving long position's stop-loss is at least `price * (1 - pct)`. -/
theorem update_position_stop_lb_long (rules : ExitRules) (p : Portfolio)
    (ticker : String) (price : ℚ) (t : ℕ) (position' : Position) (s₁ : ℚ)
    (hafter : dictLookup (p.update_position rules ticker price t).positions ticker
      = some position')
    (ht : rules.trailing = true)
    (hq : 0 < position'.quantity) (hs : position'.stop_loss = some s₁) :
    price * (1 - rules.percentage) ≤ s₁ := by
  cases hpos : dictLookup p.positions ticker with
  | none =>
      rw [update_position_of_none rules price t hpos, hpos] at hafter
      exact Option.noConfusion hafter
  | some position =>
      rcases (update_position_lookup_some rules p ticker position price t hpos
          position' hafter).2.2 with ⟨htf, -⟩ | ⟨hnone, heq⟩ | ⟨-, sl, hsl, hcase⟩
      · rw [htf] at ht
        exact Bool.noConfusion ht
      · rw [heq, hnone] at hs
        exact Option.noConfusion hs
      · rcases hcase with ⟨-, hc, heq⟩ | ⟨-, -, heq⟩ | ⟨hq0, -, heq⟩ | ⟨hq0, -, heq⟩
        · rw [heq, hsl] at hs
          obtain rfl : sl = s₁ := Option.some.inj hs
          exact not_lt.mp hc
        · rw [heq] at hs
          simp only [Position.update_stop_loss] at hs
          obtain rfl : price * (1 - rules.percentage) = s₁ := Option.some.inj hs
          exact le_rfl
        · rw [heq] at hq
          exact absurd hq hq0
        · rw [heq] at hq
          simp only [Position.update_stop_loss] at hq
          exact absurd hq hq0

/-- C4: for a long position the stored trailing stop is non-decreasing across
any sequence of `update_position` calls; for a short position it is
non-increasing; and for a sane trailing percentage (`0 ≤ pct ≤ 1`) a second
call at a strictly lower price than the previous call never changes a long
position's stop. -/
theorem C4_trailing_stop_monotone (rules : ExitRules) (ticker : String) :
    (∀ (l : List (ℚ × ℕ)) (p : Portfolio) (position : Position) (s : ℚ),
      dictLookup p.positions ticker = some position →
      0 < position.quantity → position.stop_loss = some s →
      ∀ position', dictLookup (updateSeq rules ticker p l).positions ticker
          = some position' →
        0 < position'.quantity ∧ ∃ s' : ℚ, position'.stop_loss = some s' ∧ s ≤ s') ∧
    (∀ (l : List (ℚ × ℕ)) (p : Portfolio) (position : Position) (s : ℚ),
      dictLookup p.positions ticker = some position →
      position.quantity < 0 → position.stop_loss = some s →
      ∀ position', dictLookup (updateSeq rules ticker p l).positions ticker
          = some position' →
        position'.quantity < 0 ∧ ∃ s' : ℚ, position'.stop_loss = some s' ∧ s' ≤ s) ∧
    (∀ (p : Portfolio) (p₁ p₂ : ℚ) (t₁ t₂ : ℕ) (pos₁ : Position) (s₁ : ℚ),
      0 ≤ rules.percentage → rules.percentage ≤ 1 → p₂ < p₁ →
      dictLookup (p.update_position rules ticker p₁ t₁).positions ticker = some pos₁ →
      0 < pos₁.quantity → pos₁.stop_loss = some s₁ →
      ∀ pos₂,
        dictLookup
          ((p.update_position rules ticker p₁ t₁).update_position rules ticker
            p₂ t₂).positions ticker = some pos₂ →
        pos₂.stop_loss = some s₁) := by
  refine ⟨updateSeq_stop_mono_long rules ticker, updateSeq_stop_mono_short rules ticker, ?_⟩
  intro p p₁ p₂ t₁ t₂ pos₁ s₁ hpct0 hpct1 hfall hm hq hs pos₂ h2
  rcases (update_position_lookup_some rules (p.update_position rules ticker p₁ t₁) ticker
      pos₁ p₂ t₂ hm pos₂ h2).2.2 with ⟨-, heq⟩ | ⟨hnone, -⟩ | ⟨ht, sl, hsl, hcase⟩
  · rw [heq, hs]
  · rw [hnone] at hs
    exact Option.noConfusion hs
  · have hlb := update_position_stop_lb_long rules p ticker p₁ t₁ pos₁ s₁ hm ht hq hs
    rw [hs] at hsl
    obtain rfl : s₁ = sl := Option.some.inj hsl
    rcases hcase with ⟨-, -, heq⟩ | ⟨-, hc, -⟩ | ⟨hq0, -, -⟩ | ⟨hq0, -, -⟩
    · rw [heq, hs]
    · exfalso
      have hle : p₂ * (1 - rules.percentage) ≤ p₁ * (1 - rules.percentage) :=
        mul_le_mul_of_nonneg_right (le_of_lt hfall) (by linarith)
      exact absurd hc (not_lt.mpr (le_trans hle hlb))
    · exact absurd hq hq0
    · exact absurd hq hq0

/-- Witness for C4 (first conjunct): one call at price 100 on a long AAPL
position with stop 90 and trailing at 5% raises the stop to 95 ≥ 90. -/
theorem C4_trailing_stop_monotone_witness :
    0 < (posStopOnly.update_stop_loss 95).quantity ∧
    ∃ s' : ℚ, (posStopOnly.update_stop_loss 95).stop_loss = some s' ∧ (90:ℚ) ≤ s' :=
  (C4_trailing_stop_monotone rulesOn "AAPL").1 [((100:ℚ), 1)] pfStopOnly posStopOnly 90
    (by norm_num [pfStopOnly, Portfolio.add_position, Portfolio.init, posStopOnly,
      dictLookup, dictInsert])
    (by norm_num [posStopOnly]) rfl (posStopOnly.update_stop_loss 95)
    (by norm_num [updateSeq, pfStopOnly, Portfolio.update_position, Portfolio.add_position,
      Portfolio.init, posStopOnly, dictLookup, dictInsert, stopLossTriggered,
      takeProfitTriggered, applyTrailingStop, rulesOn, Position.update_stop_loss])

end Trading
